import Mathlib

/-!
Shallow embedding of the ddwfttw_vehicle BEMT rotor / vehicle simulation
(airfoil.py, blade.py, rotor.py, rk4.py, vehicle.py), with theorems checking
the natural-language specification against the code.

Pure table-lookup code (interpolation, airfoil tables, blade geometry, rotor
discretization) is embedded generically over a linear ordered field, so it is
executable over ℚ; the BEMT solver and the vehicle force model use transcendental
functions and are embedded over ℝ.
-/

namespace DDWFTTW

/-- Model of numpy.interp for one-dimensional piecewise-linear interpolation
with ascending sample points `xp`: values outside the sampled range clamp to
the first / last sample value.  `interpAux x x0 y0 xs ys` handles a query
`x` with `x0 < x`, where `(x0, y0)` is the sample point directly before the
remaining points `xs`/`ys`. -/
def interpAux {α : Type} [LinearOrderedField α] (x : α) : α → α → List α → List α → α
  | _, y0, [], _ => y0
  | _, y0, _ :: _, [] => y0
  | x0, y0, x1 :: xs, y1 :: ys =>
      if x ≤ x1 then y0 + (y1 - y0) * (x - x0) / (x1 - x0)
      else interpAux x x1 y1 xs ys

/-- Model of numpy.interp: `interp x xp fp` linearly interpolates the tabulated
function `xp ↦ fp` at `x`, clamping to the endpoint values outside the range. -/
def interp {α : Type} [LinearOrderedField α] (x : α) : List α → List α → α
  | x0 :: xs, y0 :: ys => if x ≤ x0 then y0 else interpAux x x0 y0 xs ys
  | _, _ => 0

/-- airfoil.py `Airfoil`: one or more tables of (alpha, Cl, Cd) samples.
The Python fields `_alphas`, `_cls`, `_cds` are parallel lists of tables. -/
structure Airfoil (α : Type) where
  alphas : List (List α)
  cls : List (List α)
  cds : List (List α)

/-- airfoil.py `Airfoil.Cl`: interpolate the lift coefficient in every table
and return the average over the tables. -/
def Airfoil.Cl {α : Type} [LinearOrderedField α] (af : Airfoil α) (alpha : α) : α :=
  (((af.alphas.zip af.cls).map (fun t => interp alpha t.1 t.2)).sum) / (af.alphas.length : α)

/-- airfoil.py `Airfoil.Cd`: interpolate the drag coefficient in every table
and return the average over the tables. -/
def Airfoil.Cd {α : Type} [LinearOrderedField α] (af : Airfoil α) (alpha : α) : α :=
  (((af.alphas.zip af.cds).map (fun t => interp alpha t.1 t.2)).sum) / (af.alphas.length : α)

/-- airfoil.py `Airfoil.readClCdTables` (the part after file parsing): given a
Cl table `(alphascl, cls)` and a Cd table `(alphascd, cds)`, interpolate the
table on the coarser alpha grid onto the finer grid (finer = more samples,
ties going to the Cd grid, exactly as the code's `>` comparison) and store one
effective table. -/
def Airfoil.readClCdTables {α : Type} [LinearOrderedField α]
    (alphascl cls alphascd cds : List α) : Airfoil α :=
  if alphascl.length > alphascd.length then
    ⟨[alphascl], [cls], [alphascl.map (fun a => interp a alphascd cds)]⟩
  else
    ⟨[alphascd], [alphascd.map (fun a => interp a alphascl cls)], [cds]⟩

/-- blade.py `Blade`: radial stations with chord and twist, plus the airfoil. -/
structure Blade (α : Type) where
  radial : List α
  chordTab : List α
  twistTab : List α
  airfoil : Airfoil α

/-- blade.py `Blade.innerRadius`: the first radial station. -/
def Blade.innerRadius {α : Type} [LinearOrderedField α] (b : Blade α) : α :=
  b.radial.getD 0 0

/-- blade.py `Blade.outerRadius`: the last radial station. -/
def Blade.outerRadius {α : Type} [LinearOrderedField α] (b : Blade α) : α :=
  b.radial.getLastD 0

/-- blade.py `Blade.chord`: interpolated chord at radial location `r`. -/
def Blade.chord {α : Type} [LinearOrderedField α] (b : Blade α) (r : α) : α :=
  interp r b.radial b.chordTab

/-- blade.py `Blade.twist`: interpolated twist at radial location `r`. -/
def Blade.twist {α : Type} [LinearOrderedField α] (b : Blade α) (r : α) : α :=
  interp r b.radial b.twistTab

/-- In an ascending list, the head is at most any element. -/
lemma sorted_head_le_getD {α : Type} [LinearOrderedField α] (a : α) (l : List α)
    (hs : List.Pairwise (· < ·) (a :: l)) (i : ℕ) (hi : i < (a :: l).length) :
    a ≤ (a :: l).getD i 0 := by
  cases i with
  | zero => simp
  | succ j =>
      have hj : j < l.length := by simpa using hi
      rw [List.getD_cons_succ, List.getD_eq_getElem _ _ hj]
      exact le_of_lt ((List.pairwise_cons.mp hs).1 _ (List.getElem_mem hj))

/-- Adjacent elements of an ascending list are strictly increasing. -/
lemma sorted_getD_lt_succ {α : Type} [LinearOrderedField α] (l : List α)
    (hs : List.Pairwise (· < ·) l) (i : ℕ) (hi : i + 1 < l.length) :
    l.getD i 0 < l.getD (i + 1) 0 := by
  have hi' : i < l.length := Nat.lt_of_succ_lt hi
  rw [List.getD_eq_getElem _ _ hi', List.getD_eq_getElem _ _ hi]
  exact List.pairwise_iff_getElem.mp hs i (i + 1) hi' hi (Nat.lt_succ_self i)

/-- `interpAux` on segment `i` (between the `i`-th point of `x0 :: xs` and the
`i`-th point of `xs`) returns the linear interpolant of that segment. -/
lemma interpAux_segment {α : Type} [LinearOrderedField α] (x : α) :
    ∀ (xs ys : List α) (x0 y0 : α) (i : ℕ),
    List.Pairwise (· < ·) (x0 :: xs) → xs.length = ys.length → i < xs.length →
    (x0 :: xs).getD i 0 < x → x ≤ xs.getD i 0 →
    interpAux x x0 y0 xs ys =
      (y0 :: ys).getD i 0 +
        (ys.getD i 0 - (y0 :: ys).getD i 0) * (x - (x0 :: xs).getD i 0) /
          (xs.getD i 0 - (x0 :: xs).getD i 0) := by
  intro xs
  induction xs with
  | nil => intro ys x0 y0 i _ _ hi _ _; exact absurd hi (by simp)
  | cons x1 xs ih =>
      intro ys x0 y0 i hs hlen hi hlo hhi
      cases ys with
      | nil => exact absurd hlen (by simp)
      | cons y1 ys =>
          cases i with
          | zero =>
              simp only [List.getD_cons_zero] at hlo hhi ⊢
              simp [interpAux, if_pos hhi]
          | succ j =>
              have hj : j < xs.length := by simpa using hi
              have hx1 : x1 ≤ (x1 :: xs).getD j 0 :=
                sorted_head_le_getD x1 xs (List.pairwise_cons.mp hs).2 j
                  (by simpa using Nat.lt_succ_of_lt hj)
              have hx : x1 < x := lt_of_le_of_lt hx1 (by simpa using hlo)
              simp only [List.getD_cons_succ] at hlo hhi ⊢
              rw [interpAux, if_neg (not_le.mpr hx)]
              exact ih ys x1 y1 j (List.pairwise_cons.mp hs).2
                (by simpa using hlen) hj hlo hhi

/-- `interp` between two adjacent sample points is the linear interpolant of
that segment. -/
lemma interp_segment {α : Type} [LinearOrderedField α] (x : α) (xp fp : List α) (i : ℕ)
    (hs : List.Pairwise (· < ·) xp) (hlen : xp.length = fp.length)
    (hi : i + 1 < xp.length) (hlo : xp.getD i 0 < x) (hhi : x ≤ xp.getD (i + 1) 0) :
    interp x xp fp =
      fp.getD i 0 + (fp.getD (i + 1) 0 - fp.getD i 0) * (x - xp.getD i 0) /
        (xp.getD (i + 1) 0 - xp.getD i 0) := by
  cases xp with
  | nil => exact absurd hi (by simp)
  | cons x0 xs =>
      cases fp with
      | nil => exact absurd hlen (by simp)
      | cons y0 ys =>
          have hx0 : x0 < x :=
            lt_of_le_of_lt (sorted_head_le_getD x0 xs hs i (Nat.lt_of_succ_lt hi)) hlo
          rw [interp, if_neg (not_le.mpr hx0)]
          have hi' : i < xs.length := by simpa using hi
          simpa using interpAux_segment x xs ys x0 y0 i hs (by simpa using hlen) hi' hlo hhi

/-- `interp` is exact at every sample point of an ascending table. -/
lemma interp_exact {α : Type} [LinearOrderedField α] (xp fp : List α) (i : ℕ)
    (hs : List.Pairwise (· < ·) xp) (hlen : xp.length = fp.length) (hi : i < xp.length) :
    interp (xp.getD i 0) xp fp = fp.getD i 0 := by
  cases i with
  | zero =>
      cases xp with
      | nil => exact absurd hi (by simp)
      | cons x0 xs =>
          cases fp with
          | nil => exact absurd hlen (by simp)
          | cons y0 ys => simp [interp]
  | succ j =>
      have hlt : xp.getD j 0 < xp.getD (j + 1) 0 := sorted_getD_lt_succ xp hs j hi
      rw [interp_segment (xp.getD (j + 1) 0) xp fp j hs hlen hi hlt le_rfl]
      have hne : xp.getD (j + 1) 0 - xp.getD j 0 ≠ 0 := sub_ne_zero.mpr (ne_of_gt hlt)
      rw [mul_div_assoc, div_self hne, mul_one]
      ring

/-- `interpAux` clamps to the last value when the query is beyond every
remaining sample point. -/
lemma interpAux_last {α : Type} [LinearOrderedField α] (x : α) :
    ∀ (xs ys : List α) (x0 y0 : α), xs.length = ys.length →
    (∀ y ∈ xs, y < x) → interpAux x x0 y0 xs ys = ys.getLastD y0 := by
  intro xs
  induction xs with
  | nil =>
      intro ys x0 y0 hlen _
      cases ys with
      | nil => rfl
      | cons y1 ys => exact absurd hlen (by simp)
  | cons x1 xs ih =>
      intro ys x0 y0 hlen hall
      cases ys with
      | nil => exact absurd hlen (by simp)
      | cons y1 ys =>
          rw [interpAux, if_neg (not_le.mpr (hall x1 (by simp))), List.getLastD_cons]
          exact ih ys x1 y1 (by simpa using hlen) (fun y hy => hall y (by simp [hy]))

/-- `interp` clamps to the last sample value above the sampled range. -/
lemma interp_clamp_right {α : Type} [LinearOrderedField α] (x : α) (xp fp : List α)
    (hlen : xp.length = fp.length) (hne : xp ≠ [])
    (hall : ∀ y ∈ xp, y < x) : interp x xp fp = fp.getLastD 0 := by
  cases xp with
  | nil => exact absurd rfl hne
  | cons x0 xs =>
      cases fp with
      | nil => exact absurd hlen (by simp)
      | cons y0 ys =>
          rw [interp, if_neg (not_le.mpr (hall x0 (by simp))), List.getLastD_cons]
          exact interpAux_last x xs ys x0 y0 (by simpa using hlen)
            (fun y hy => hall y (by simp [hy]))

/-- `interp` clamps to the first sample value at or below the first sample. -/
lemma interp_clamp_left {α : Type} [LinearOrderedField α] (x : α) (xp fp : List α)
    (hlen : xp.length = fp.length) (hne : xp ≠ [])
    (hx : x ≤ xp.getD 0 0) : interp x xp fp = fp.getD 0 0 := by
  cases xp with
  | nil => exact absurd rfl hne
  | cons x0 xs =>
      cases fp with
      | nil => exact absurd hlen (by simp)
      | cons y0 ys => rw [interp, if_pos (by simpa using hx)]; simp

/-- rotor.py `Rotor`: blade, blade count, discretization and per-strip output
arrays.  Fields follow `Rotor.__init__`; scalar fields initialized to `None`
in Python are `Option` values here. -/
structure Rotor (α : Type) where
  blade : Blade α
  nblades : ℕ
  rstrip : List α
  chordstrip : List α
  twiststrip : List α
  dR : Option α
  inflow : List α
  alpha : List α
  cl : List α
  cd : List α
  dT : List α
  dP : List α
  thrust : Option α
  power : Option α
  CT : Option α
  CP : Option α

/-- rotor.py `Rotor.__init__`. -/
def Rotor.init {α : Type} (blade : Blade α) (nblades : ℕ) : Rotor α :=
  ⟨blade, nblades, [], [], [], none, [], [], [], [], [], [], none, none, none, none⟩

/-- rotor.py `Rotor.discretize`: computes chord and twist distributions at the
`nstrips` strip centers and zero-initializes the output arrays.  Note that the
code clears `_chordstrip` and `_twiststrip` but only ever appends to
`_rstrip`, which is embedded faithfully here. -/
def Rotor.discretize {α : Type} [LinearOrderedField α] (ro : Rotor α) (nstrips : ℕ) :
    Rotor α :=
  let Ri := ro.blade.innerRadius
  let Ro := ro.blade.outerRadius
  let dR := (Ro - Ri) / (nstrips : α)
  let rs := (List.range nstrips).map (fun strip => Ri + ((strip : α) + 0.5) * dR)
  { ro with
    rstrip := ro.rstrip ++ rs
    chordstrip := rs.map ro.blade.chord
    twiststrip := rs.map ro.blade.twist
    dR := some dR
    inflow := List.replicate nstrips 0
    alpha := List.replicate nstrips 0
    cl := List.replicate nstrips 0
    cd := List.replicate nstrips 0
    dT := List.replicate nstrips 0
    dP := List.replicate nstrips 0 }

/-- math.degrees: radians to degrees. -/
noncomputable def degrees (x : ℝ) : ℝ := x * 180 / Real.pi

/-- rotor.py `Rotor.calc`, lines 85-90: Prandtl tip-loss factor, guarded on
`V + vi > 0` (`Up` is `V + vi`). -/
noncomputable def tipLoss (b : ℕ) (Ro r phi Up : ℝ) : ℝ :=
  if Up > 0 then
    2 / Real.pi * Real.arccos (Real.exp (-(0.5 * (b : ℝ) * (Ro - r) / (r * Real.sin phi))))
  else 1

/-- rotor.py `Rotor.calc`, lines 96-100: new inflow candidate from 1-D
momentum theory, `vim = -0.5 V + sqrt(max(0.25 V² + dT/(4 π ρ r ΔR), 0))`. -/
noncomputable def inflowCandidate (rho V r dR dT : ℝ) : ℝ :=
  let a := 4 * Real.pi * rho * r * dR
  let arg := 0.25 * V ^ 2 + dT / a
  let vim := -0.5 * V + Real.sqrt (max arg 0); vim

/-- The quantities computed by one pass of the inner inflow-iteration loop of
`Rotor.calc` that are stored or carried to the next pass. -/
structure BodyOut where
  alpha : ℝ
  cl : ℝ
  cd : ℝ
  dT : ℝ
  dP : ℝ
  vim : ℝ

/-- One pass of the inner `while` loop of rotor.py `Rotor.calc` (lines 74-100)
for a strip at radius `r` with the given chord and twist, from the current
induced-inflow estimate `vi`. -/
noncomputable def stripBody (af : Airfoil ℝ) (b : ℕ) (Ro dR rho V om theta0 r chord twist vi : ℝ) :
    BodyOut :=
  let Ut := om * r
  let Up := V + vi
  let Usquare := Ut ^ 2 + Up ^ 2
  let phi := Real.arctan (Up / Ut)
  let alpha := theta0 + twist - degrees phi
  let cl := af.Cl alpha
  let cd := af.Cd alpha
  let Lp := 0.5 * rho * Usquare * chord * cl
  let Dp := 0.5 * rho * Usquare * chord * cd
  let Ft := tipLoss b Ro r phi Up
  let dT := (b : ℝ) * Ft * dR * (Lp * Real.cos phi - Dp * Real.sin phi)
  let dP := (b : ℝ) * Ft * Ut * dR * (Dp * Real.cos phi + Lp * Real.sin phi)
  let vim := inflowCandidate rho V r dR dT
  ⟨alpha, cl, cd, dT, dP, vim⟩

/-- The inner `while` loop of rotor.py `Rotor.calc` (lines 73-105): iterate the
strip body until the inflow error is at most `tol` or the iteration budget is
exhausted, carrying `(vi, inflow_err, last body output)`.  The error uses the
code's `sqrt((vim - vi)**2)` and the relaxed update `relax*vim + (1-relax)*vi`. -/
noncomputable def stripLoop (af : Airfoil ℝ) (b : ℕ) (Ro dR rho V om theta0 tol relax r chord twist : ℝ) :
    ℕ → ℝ → ℝ → Option BodyOut → ℝ × Option BodyOut
  | 0, vi, _, last => (vi, last)
  | fuel + 1, vi, err, last =>
      if err > tol then
        let bo := stripBody af b Ro dR rho V om theta0 r chord twist vi
        stripLoop af b Ro dR rho V om theta0 tol relax r chord twist fuel
          (relax * bo.vim + (1 - relax) * vi)
          (Real.sqrt ((bo.vim - vi) ^ 2) / (om * Ro)) (some bo)
      else (vi, last)

/-- The per-strip part of rotor.py `Rotor.calc` (lines 66-124): converge the
strip's inflow, store the converged values into the per-strip output arrays,
and recompute the aggregates from the current arrays (which the code does
inside the strip loop). -/
noncomputable def calcStrip (af : Airfoil ℝ) (b : ℕ) (Ro dR A rho V om theta0 : ℝ) (maxiters : ℕ)
    (tol relax : ℝ) (acc : Rotor ℝ) (strip : ℕ) : Rotor ℝ :=
  let r := acc.rstrip.getD strip 0
  let vi := acc.inflow.getD strip 0
  let chord := acc.chordstrip.getD strip 0
  let twist := acc.twiststrip.getD strip 0
  let res := stripLoop af b Ro dR rho V om theta0 tol relax r chord twist maxiters vi 1e6 none
  let bo := res.2.getD ⟨0, 0, 0, 0, 0, 0⟩
  let acc1 := { acc with
    inflow := acc.inflow.set strip res.1
    alpha := acc.alpha.set strip bo.alpha
    cl := acc.cl.set strip bo.cl
    cd := acc.cd.set strip bo.cd
    dT := acc.dT.set strip bo.dT
    dP := acc.dP.set strip bo.dP }
  { acc1 with
    thrust := some acc1.dT.sum
    power := some acc1.dP.sum
    CT := some (acc1.dT.sum / (rho * A * (om * Ro) ^ 2))
    CP := some (acc1.dP.sum / (rho * A * (om * Ro) ^ 3)) }

/-- rotor.py `Rotor.calc`: forces and power on the rotor in hover or climbing
flight.  The Python defaults are `maxiters = 5000`, `tol = 1e-12`,
`relax = 0.01`; callers pass them explicitly here. -/
noncomputable def Rotor.calc (ro : Rotor ℝ) (rho V rpm theta0 : ℝ) (maxiters : ℕ) (tol relax : ℝ) :
    Rotor ℝ :=
  let om := rpm * 1 / 60 * 2 * Real.pi
  let nstrips := ro.rstrip.length
  let b := ro.nblades
  let Ro := ro.blade.outerRadius
  let A := Real.pi * Ro ^ 2
  (List.range nstrips).foldl
    (calcStrip ro.blade.airfoil b Ro (ro.dR.getD 0) A rho V om theta0 maxiters tol relax) ro

/-- rk4.py `RK4`: state of the classical fourth-order Runge-Kutta integrator
over a state space `V` (a numpy vector in the code). -/
structure RK4 (V : Type) where
  func : ℝ → V → V
  t : ℝ
  y : V
  dt : ℝ

/-- rk4.py `RK4.step`: one classical four-stage Runge-Kutta step. -/
noncomputable def RK4.step {V : Type} [AddCommGroup V] [Module ℝ V] (s : RK4 V) : RK4 V :=
  let k1 := s.func s.t s.y
  let k2 := s.func (s.t + 0.5 * s.dt) (s.y + (0.5 * s.dt) • k1)
  let k3 := s.func (s.t + 0.5 * s.dt) (s.y + (0.5 * s.dt) • k2)
  let k4 := s.func (s.t + s.dt) (s.y + s.dt • k3)
  { s with
    y := s.y + (s.dt / 6) • (k1 + (2 : ℝ) • k2 + (2 : ℝ) • k3 + k4)
    t := s.t + s.dt }

/-- vehicle.py `Vehicle`: parameters, the rotor, and the externally set speed
(`None` until `setSpeed` is called). -/
structure Vehicle where
  rw : ℝ
  trans : ℝ
  eta_trans : ℝ
  CDf : ℝ
  CDb : ℝ
  Crr : ℝ
  A : ℝ
  m : ℝ
  rotor : Rotor ℝ
  Vvehicle : Option ℝ

/-- vehicle.py `Vehicle.setSpeed`. -/
def Vehicle.setSpeed (v : Vehicle) (Vv : ℝ) : Vehicle :=
  { v with Vvehicle := some Vv }

/-- The force breakdown returned by vehicle.py `Vehicle.computeForces` (the
Python dict with keys rotor_thrust, aero_drag, rotor_drag, rolling).  The
thrust is `Option` because it is copied from the rotor's `_thrust` field. -/
structure ForceBreakdown where
  rotor_thrust : Option ℝ
  aero_drag : ℝ
  rotor_drag : ℝ
  rolling : ℝ

/-- vehicle.py `Vehicle.computeForces`: computes the rotor state and the force
breakdown from wind speed, air density, collective pitch and gravitational
acceleration.  Returns `none` when the vehicle speed was never set (the code
aborts through `sys.exit`); the emitted diagnostic messages are returned as a
list of strings (the code prints them). -/
noncomputable def Vehicle.computeForces (v : Vehicle) (Vwind rho theta0 g : ℝ) :
    Option (Rotor ℝ × ForceBreakdown × List String) :=
  match v.Vvehicle with
  | none => none
  | some Vv =>
      let wheel_rps := Vv / (2 * Real.pi * v.rw)
      let wheel_rpm := wheel_rps * 60
      let rotor_rpm := wheel_rpm / v.trans
      let vrel := Vv - Vwind
      let rotor1 :=
        if rotor_rpm > 0 then v.rotor.calc rho vrel rotor_rpm theta0 5000 1e-12 0.01
        else { v.rotor with thrust := some 0, power := some 0 }
      let msgs : List String :=
        if rotor_rpm > 0 then []
        else ["Rotor speed is less than or equal to 0. Zeroing torque and power."]
      let Fdrag_aero :=
        if vrel < 0 then v.CDb * 0.5 * rho * vrel ^ 2 * v.A
        else -v.CDf * 0.5 * rho * vrel ^ 2 * v.A
      let Fdrag_rotor :=
        if rotor_rpm > 0 then
          let rotor_om := rotor_rpm * 1 / 60 * 2 * Real.pi
          let rotor_torque := rotor1.power.getD 0 / rotor_om
          let wheel_torque := rotor_torque / (v.trans * v.eta_trans)
          let fdr := -wheel_torque / v.rw; fdr
        else 0
      let Frr := -v.Crr * v.m * g
      some (rotor1, ⟨rotor1.thrust, Fdrag_aero, Fdrag_rotor, Frr⟩, msgs)

/-- Claim C3: one call to `RK4.step` advances the state by exactly the
classical four-stage Runge-Kutta formula: `k1 = f(t, y)`,
`k2 = f(t + dt/2, y + dt/2 k1)`, `k3 = f(t + dt/2, y + dt/2 k2)`,
`k4 = f(t + dt, y + dt k3)`, the new `y` is `y + dt/6 (k1 + 2 k2 + 2 k3 + k4)`
and the new `t` is `t + dt` (derivative function and step size unchanged). -/
theorem rk4_step_classical {V : Type} [AddCommGroup V] [Module ℝ V] (s : RK4 V) :
    RK4.step s =
      { s with
        y := s.y + (s.dt / 6) •
          (s.func s.t s.y
            + (2 : ℝ) • s.func (s.t + s.dt / 2) (s.y + (s.dt / 2) • s.func s.t s.y)
            + (2 : ℝ) • s.func (s.t + s.dt / 2)
                (s.y + (s.dt / 2) • s.func (s.t + s.dt / 2) (s.y + (s.dt / 2) • s.func s.t s.y))
            + s.func (s.t + s.dt)
                (s.y + s.dt • s.func (s.t + s.dt / 2)
                  (s.y + (s.dt / 2) • s.func (s.t + s.dt / 2) (s.y + (s.dt / 2) • s.func s.t s.y))))
        t := s.t + s.dt } := by
  simp only [RK4.step]
  norm_num
  have h : (1 : ℝ) / 2 * s.dt = s.dt / 2 := by ring
  simp only [h]

/-- Claim C1: the inner-loop inflow candidate is
`vim = -0.5 V + sqrt(max(0.25 V² + dT/(4 π ρ r ΔR), 0))`; the argument passed
to `sqrt` is never negative, and whenever the radicand is nonnegative the
momentum-theory equation `dT = 4 π ρ r ΔR (V vim + vim²)` is solved exactly. -/
theorem inflowCandidate_solves_momentum (rho V r dR dT : ℝ)
    (hrho : 0 < rho) (hr : 0 < r) (hdR : 0 < dR)
    (harg : 0 ≤ 0.25 * V ^ 2 + dT / (4 * Real.pi * rho * r * dR)) :
    0 ≤ max (0.25 * V ^ 2 + dT / (4 * Real.pi * rho * r * dR)) 0 ∧
    inflowCandidate rho V r dR dT =
      -0.5 * V + Real.sqrt (max (0.25 * V ^ 2 + dT / (4 * Real.pi * rho * r * dR)) 0) ∧
    4 * Real.pi * rho * r * dR *
        (V * inflowCandidate rho V r dR dT + inflowCandidate rho V r dR dT ^ 2) = dT := by
  have hπ : (0 : ℝ) < Real.pi := Real.pi_pos
  have ha : (0 : ℝ) < 4 * Real.pi * rho * r * dR := by positivity
  refine ⟨le_max_right _ _, rfl, ?_⟩
  have hmax : max (0.25 * V ^ 2 + dT / (4 * Real.pi * rho * r * dR)) 0 =
      0.25 * V ^ 2 + dT / (4 * Real.pi * rho * r * dR) := max_eq_left harg
  have hs : Real.sqrt (0.25 * V ^ 2 + dT / (4 * Real.pi * rho * r * dR)) ^ 2 =
      0.25 * V ^ 2 + dT / (4 * Real.pi * rho * r * dR) := Real.sq_sqrt harg
  simp only [inflowCandidate, hmax]
  have hexp : V * (-0.5 * V + Real.sqrt (0.25 * V ^ 2 + dT / (4 * Real.pi * rho * r * dR)))
      + (-0.5 * V + Real.sqrt (0.25 * V ^ 2 + dT / (4 * Real.pi * rho * r * dR))) ^ 2 =
      Real.sqrt (0.25 * V ^ 2 + dT / (4 * Real.pi * rho * r * dR)) ^ 2 - 0.25 * V ^ 2 := by
    ring
  rw [hexp, hs]
  have : 0.25 * V ^ 2 + dT / (4 * Real.pi * rho * r * dR) - 0.25 * V ^ 2 =
      dT / (4 * Real.pi * rho * r * dR) := by ring
  rw [this, mul_comm, div_mul_cancel₀ _ (ne_of_gt ha)]

/-- Witness for claim C1 at `ρ = 1`, `V = 0`, `r = 1`, `ΔR = 1`, `dT = 0`. -/
theorem inflowCandidate_solves_momentum_witness :
    0 ≤ max (0.25 * (0 : ℝ) ^ 2 + 0 / (4 * Real.pi * 1 * 1 * 1)) 0 ∧
    inflowCandidate 1 0 1 1 0 =
      -0.5 * 0 + Real.sqrt (max (0.25 * (0 : ℝ) ^ 2 + 0 / (4 * Real.pi * 1 * 1 * 1)) 0) ∧
    4 * Real.pi * 1 * 1 * 1 * (0 * inflowCandidate 1 0 1 1 0 + inflowCandidate 1 0 1 1 0 ^ 2) = 0 :=
  inflowCandidate_solves_momentum 1 0 1 1 0 (by norm_num) (by norm_num) (by norm_num) (by simp)

/-- Claim C2: the tip-loss factor is `F = (2/π) acos(exp(-f))` with
`f = 0.5 B (R_outer - r)/(r sin φ)` whenever `V + v_i > 0` and `F = 1`
otherwise; and for a strip with `0 < r < R_outer`, at least one blade,
positive rotational speed and `V + v_i > 0` (so `φ = atan((V+v_i)/(Ω r))` lies
in `(0, π/2)`), the resulting `F` lies in `(0, 1]`. -/
theorem tipLoss_formula_and_bounds (b : ℕ) (Ro r V vi om phi Up2 phi2 : ℝ)
    (hb : 1 ≤ b) (hr : 0 < r) (hRo : r < Ro) (hom : 0 < om)
    (hUp : 0 < V + vi) (hphi : phi = Real.arctan ((V + vi) / (om * r)))
    (hUp2 : Up2 ≤ 0) :
    tipLoss b Ro r phi (V + vi) =
      2 / Real.pi * Real.arccos (Real.exp (-(0.5 * (b : ℝ) * (Ro - r) / (r * Real.sin phi)))) ∧
    tipLoss b Ro r phi2 Up2 = 1 ∧
    0 < tipLoss b Ro r phi (V + vi) ∧ tipLoss b Ro r phi (V + vi) ≤ 1 := by
  have hπ : (0 : ℝ) < Real.pi := Real.pi_pos
  have hform : tipLoss b Ro r phi (V + vi) =
      2 / Real.pi * Real.arccos (Real.exp (-(0.5 * (b : ℝ) * (Ro - r) / (r * Real.sin phi)))) := by
    rw [tipLoss, if_pos hUp]
  have hother : tipLoss b Ro r phi2 Up2 = 1 := by
    rw [tipLoss, if_neg (not_lt.mpr hUp2)]
  have hphi_pos : 0 < phi := by
    rw [hphi, ← Real.arctan_zero]
    exact Real.arctan_strictMono (div_pos hUp (mul_pos hom hr))
  have hphi_lt : phi < Real.pi / 2 := hphi ▸ Real.arctan_lt_pi_div_two _
  have hsin : 0 < Real.sin phi :=
    Real.sin_pos_of_pos_of_lt_pi hphi_pos (lt_trans hphi_lt (by linarith))
  have hbpos : (0 : ℝ) < (b : ℝ) := by exact_mod_cast hb
  have hf : 0 < 0.5 * (b : ℝ) * (Ro - r) / (r * Real.sin phi) := by
    apply div_pos
    · have : (0 : ℝ) < Ro - r := by linarith
      positivity
    · positivity
  have hexp_lt : Real.exp (-(0.5 * (b : ℝ) * (Ro - r) / (r * Real.sin phi))) < 1 := by
    rw [Real.exp_lt_one_iff]
    linarith
  have hexp_pos : (0 : ℝ) < Real.exp (-(0.5 * (b : ℝ) * (Ro - r) / (r * Real.sin phi))) :=
    Real.exp_pos _
  have hacos_pos : 0 < Real.arccos (Real.exp (-(0.5 * (b : ℝ) * (Ro - r) / (r * Real.sin phi)))) :=
    Real.arccos_pos.mpr hexp_lt
  have hacos_le : Real.arccos (Real.exp (-(0.5 * (b : ℝ) * (Ro - r) / (r * Real.sin phi)))) ≤
      Real.pi / 2 := Real.arccos_le_pi_div_two.mpr (le_of_lt hexp_pos)
  refine ⟨hform, hother, ?_, ?_⟩
  · rw [hform]
    positivity
  · rw [hform]
    have h2π : 0 < 2 / Real.pi := by positivity
    calc 2 / Real.pi * Real.arccos (Real.exp (-(0.5 * (b : ℝ) * (Ro - r) / (r * Real.sin phi))))
        ≤ 2 / Real.pi * (Real.pi / 2) := by
          exact mul_le_mul_of_nonneg_left hacos_le (le_of_lt h2π)
      _ = 1 := by field_simp

/-- Witness for claim C2 at `B = 1`, `R_outer = 2`, `r = 1`, `Ω = 1`, `V = 1`,
`v_i = 0`, with `φ = atan 1`. -/
theorem tipLoss_formula_and_bounds_witness :
    tipLoss 1 2 1 (Real.arctan ((1 + 0) / (1 * 1))) (1 + 0) =
      2 / Real.pi * Real.arccos (Real.exp (-(0.5 * ((1 : ℕ) : ℝ) * (2 - 1) /
        (1 * Real.sin (Real.arctan ((1 + 0) / (1 * 1))))))) ∧
    tipLoss 1 2 1 0 0 = 1 ∧
    0 < tipLoss 1 2 1 (Real.arctan ((1 + 0) / (1 * 1))) (1 + 0) ∧
    tipLoss 1 2 1 (Real.arctan ((1 + 0) / (1 * 1))) (1 + 0) ≤ 1 :=
  tipLoss_formula_and_bounds 1 2 1 1 0 1 (Real.arctan ((1 + 0) / (1 * 1))) 0 0
    le_rfl (by norm_num) (by norm_num) (by norm_num) (by norm_num) rfl le_rfl

/-- One strip update of `Rotor.calc` leaves the discretization and the
configuration of the rotor untouched. -/
lemma calcStrip_preserves (af : Airfoil ℝ) (b : ℕ) (Ro dR A rho V om theta0 : ℝ)
    (maxiters : ℕ) (tol relax : ℝ) (acc : Rotor ℝ) (strip : ℕ) :
    (calcStrip af b Ro dR A rho V om theta0 maxiters tol relax acc strip).blade = acc.blade ∧
    (calcStrip af b Ro dR A rho V om theta0 maxiters tol relax acc strip).nblades = acc.nblades ∧
    (calcStrip af b Ro dR A rho V om theta0 maxiters tol relax acc strip).rstrip = acc.rstrip ∧
    (calcStrip af b Ro dR A rho V om theta0 maxiters tol relax acc strip).chordstrip =
      acc.chordstrip ∧
    (calcStrip af b Ro dR A rho V om theta0 maxiters tol relax acc strip).twiststrip =
      acc.twiststrip ∧
    (calcStrip af b Ro dR A rho V om theta0 maxiters tol relax acc strip).dR = acc.dR :=
  ⟨rfl, rfl, rfl, rfl, rfl, rfl⟩

/-- Folding strip updates over any index list preserves the discretization and
configuration fields. -/
lemma foldl_calcStrip_preserves (af : Airfoil ℝ) (b : ℕ) (Ro dR A rho V om theta0 : ℝ)
    (maxiters : ℕ) (tol relax : ℝ) :
    ∀ (l : List ℕ) (acc : Rotor ℝ),
    (l.foldl (calcStrip af b Ro dR A rho V om theta0 maxiters tol relax) acc).blade =
      acc.blade ∧
    (l.foldl (calcStrip af b Ro dR A rho V om theta0 maxiters tol relax) acc).nblades =
      acc.nblades ∧
    (l.foldl (calcStrip af b Ro dR A rho V om theta0 maxiters tol relax) acc).rstrip =
      acc.rstrip ∧
    (l.foldl (calcStrip af b Ro dR A rho V om theta0 maxiters tol relax) acc).chordstrip =
      acc.chordstrip ∧
    (l.foldl (calcStrip af b Ro dR A rho V om theta0 maxiters tol relax) acc).twiststrip =
      acc.twiststrip ∧
    (l.foldl (calcStrip af b Ro dR A rho V om theta0 maxiters tol relax) acc).dR = acc.dR := by
  intro l
  induction l with
  | nil => intro acc; exact ⟨rfl, rfl, rfl, rfl, rfl, rfl⟩
  | cons s l ih =>
      intro acc
      have h1 := ih (calcStrip af b Ro dR A rho V om theta0 maxiters tol relax acc s)
      have h2 := calcStrip_preserves af b Ro dR A rho V om theta0 maxiters tol relax acc s
      simp only [List.foldl_cons]
      exact ⟨h1.1.trans h2.1, h1.2.1.trans h2.2.1, h1.2.2.1.trans h2.2.2.1,
        h1.2.2.2.1.trans h2.2.2.2.1, h1.2.2.2.2.1.trans h2.2.2.2.2.1,
        h1.2.2.2.2.2.trans h2.2.2.2.2.2⟩

/-- Claim C10: `Rotor.calc` never modifies the rotor's discretization or
configuration: the strip radii, per-strip chord and twist arrays, strip width,
blade count and the referenced blade geometry (which carries the airfoil
tables) are identical before and after the call; only the per-strip output
arrays and the aggregates are written. -/
theorem calc_preserves_discretization (ro : Rotor ℝ) (rho V rpm theta0 : ℝ)
    (maxiters : ℕ) (tol relax : ℝ) :
    (ro.calc rho V rpm theta0 maxiters tol relax).blade = ro.blade ∧
    (ro.calc rho V rpm theta0 maxiters tol relax).nblades = ro.nblades ∧
    (ro.calc rho V rpm theta0 maxiters tol relax).rstrip = ro.rstrip ∧
    (ro.calc rho V rpm theta0 maxiters tol relax).chordstrip = ro.chordstrip ∧
    (ro.calc rho V rpm theta0 maxiters tol relax).twiststrip = ro.twiststrip ∧
    (ro.calc rho V rpm theta0 maxiters tol relax).dR = ro.dR :=
  foldl_calcStrip_preserves ro.blade.airfoil ro.nblades ro.blade.outerRadius
    (ro.dR.getD 0) (Real.pi * ro.blade.outerRadius ^ 2) rho V
    (rpm * 1 / 60 * 2 * Real.pi) theta0 maxiters tol relax
    (List.range ro.rstrip.length) ro

/-- Claim C4 (failing input): `Rotor.discretize` clears `_chordstrip` and
`_twiststrip` but never clears `_rstrip`, so a repeated `discretize(1)` call on
the same rotor appends a second copy of the strip center instead of recomputing
the discretization: after two calls `_rstrip` has two entries while
`_chordstrip` has one.  A single call on a fresh rotor does produce the claimed
strip center `R_inner + 0.5 ΔR`. -/
theorem discretize_not_idempotent :
    ((Rotor.init (⟨[0, 1], [1, 1], [0, 0], ⟨[], [], []⟩⟩ : Blade ℚ) 2).discretize 1).rstrip =
      [1/2] ∧
    (((Rotor.init (⟨[0, 1], [1, 1], [0, 0], ⟨[], [], []⟩⟩ : Blade ℚ) 2).discretize 1).discretize
      1).rstrip = [1/2, 1/2] ∧
    (((Rotor.init (⟨[0, 1], [1, 1], [0, 0], ⟨[], [], []⟩⟩ : Blade ℚ) 2).discretize 1).discretize
      1).chordstrip = [1] := by
  refine ⟨?_, ?_, ?_⟩ <;>
    norm_num [Rotor.init, Rotor.discretize, Blade.innerRadius, Blade.outerRadius,
      Blade.chord, Blade.twist, interp, interpAux, List.range_succ]

/-- Claim C5 (counterexample): at vehicle speed `-1` (speed set, vehicle
moving), the returned rolling-resistance force is `-Crr m g = -1`, whose sign
is NOT opposite the sign of the velocity: the product of force and velocity is
not negative, so the force does not oppose the motion. -/
theorem rolling_opposes_motion_counterexample :
    (Vehicle.computeForces
        ⟨1, 1, 1, 1, 1, 1, 1, 1, Rotor.init ⟨[0, 1], [1, 1], [0, 0], ⟨[], [], []⟩⟩ 2, some (-1)⟩
        0 1 0 1).map (fun p => p.2.1.rolling) = some (-1) ∧
    ¬ ((-1 : ℝ) * (-1) < 0) := by
  constructor
  · simp [Vehicle.computeForces]
  · norm_num

/-- Claim C5 (amended): with the vehicle speed set, the returned
rolling-resistance force always equals `-Crr m g` (constant magnitude
`Crr m g`), which is negative — and hence opposes the motion — whenever
`Crr m g` is positive and the vehicle moves in the positive (downwind)
direction. -/
theorem rolling_resistance_value (v : Vehicle) (Vwind rho theta0 g Vv : ℝ)
    (hv : v.Vvehicle = some Vv) :
    (v.computeForces Vwind rho theta0 g).map (fun p => p.2.1.rolling) =
      some (-v.Crr * v.m * g) ∧
    (0 < v.Crr * v.m * g → -v.Crr * v.m * g < 0) := by
  constructor
  · simp [Vehicle.computeForces, hv]
  · intro h; linarith

/-- Witness for the amended claim C5 at `Crr = 2`, `m = 4`, `g = 1`,
vehicle speed `5`. -/
theorem rolling_resistance_value_witness :
    (Vehicle.computeForces
        ⟨1, 1, 1, 1, 1, 2, 3, 4, Rotor.init ⟨[0, 1], [1, 1], [0, 0], ⟨[], [], []⟩⟩ 2, some 5⟩
        0 1 0 1).map (fun p => p.2.1.rolling) = some (-(2 : ℝ) * 4 * 1) ∧
    (0 < (2 : ℝ) * 4 * 1 → -(2 : ℝ) * 4 * 1 < 0) :=
  rolling_resistance_value _ 0 1 0 1 5 rfl

/-- Claim C6: with the vehicle speed set, if the rotor rotational speed
`rpm = V/(2π r_w)·60/gear` is not strictly positive then `Rotor.calc` is not
invoked (the rotor keeps its state except for the zeroed aggregates), the
returned rotor thrust and the rotor power are zero, the rotor-induced drag is
zero, the diagnostic message is emitted, and no exception is raised (the
result is `some …`); if the rotor speed is strictly positive then the rotor
state is exactly `Rotor.calc` applied to (air density, vehicle speed minus
wind speed, rotor rpm, collective pitch) with the Python default iteration
parameters. -/
theorem computeForces_rotor_branch (v : Vehicle) (Vwind rho theta0 g Vv : ℝ)
    (hv : v.Vvehicle = some Vv) :
    (¬ Vv / (2 * Real.pi * v.rw) * 60 / v.trans > 0 →
      v.computeForces Vwind rho theta0 g =
        some ({ v.rotor with thrust := some 0, power := some 0 },
          ⟨some 0,
            if Vv - Vwind < 0 then v.CDb * 0.5 * rho * (Vv - Vwind) ^ 2 * v.A
            else -v.CDf * 0.5 * rho * (Vv - Vwind) ^ 2 * v.A,
            0, -v.Crr * v.m * g⟩,
          ["Rotor speed is less than or equal to 0. Zeroing torque and power."])) ∧
    (Vv / (2 * Real.pi * v.rw) * 60 / v.trans > 0 →
      (v.computeForces Vwind rho theta0 g).map (fun p => p.1) =
        some (v.rotor.calc rho (Vv - Vwind) (Vv / (2 * Real.pi * v.rw) * 60 / v.trans)
          theta0 5000 1e-12 0.01)) := by
  constructor
  · intro h
    simp [Vehicle.computeForces, hv, h]
  · intro h
    simp [Vehicle.computeForces, hv, h]

/-- Witness for claim C6 in the non-positive branch, at vehicle speed `0`. -/
theorem computeForces_rotor_branch_witness :
    Vehicle.computeForces
        ⟨1, 1, 1, 1, 1, 1, 1, 1, Rotor.init ⟨[0, 1], [1, 1], [0, 0], ⟨[], [], []⟩⟩ 2, some 0⟩
        1 1 0 1 =
      some ({ Rotor.init (⟨[0, 1], [1, 1], [0, 0], ⟨[], [], []⟩⟩ : Blade ℝ) 2 with
          thrust := some 0, power := some 0 },
        ⟨some 0,
          if (0 : ℝ) - 1 < 0 then 1 * 0.5 * 1 * ((0 : ℝ) - 1) ^ 2 * 1
          else -1 * 0.5 * 1 * ((0 : ℝ) - 1) ^ 2 * 1,
          0, -1 * 1 * 1⟩,
        ["Rotor speed is less than or equal to 0. Zeroing torque and power."]) :=
  (computeForces_rotor_branch _ 1 1 0 1 0 rfl).1 (by simp)

/-- Adding a constant to all remaining sample values shifts the `interpAux`
result by that constant. -/
lemma interpAux_map_add {α : Type} [LinearOrderedField α] (x k : α) :
    ∀ (xs ys : List α) (x0 y0 : α), xs.length = ys.length →
    interpAux x x0 (y0 + k) xs (ys.map (fun y => y + k)) = interpAux x x0 y0 xs ys + k := by
  intro xs
  induction xs with
  | nil =>
      intro ys x0 y0 hlen
      cases ys with
      | nil => rfl
      | cons y1 ys => exact absurd hlen (by simp)
  | cons x1 xs ih =>
      intro ys x0 y0 hlen
      cases ys with
      | nil => exact absurd hlen (by simp)
      | cons y1 ys =>
          simp only [List.map_cons, interpAux]
          by_cases h : x ≤ x1
          · rw [if_pos h, if_pos h]; ring
          · rw [if_neg h, if_neg h]
            exact ih ys x1 y1 (by simpa using hlen)

/-- Adding a constant to all sample values shifts the `interp` result by that
constant (for a nonempty table with matching lengths). -/
lemma interp_map_add {α : Type} [LinearOrderedField α] (x k : α) (xp fp : List α)
    (hne : xp ≠ []) (hlen : xp.length = fp.length) :
    interp x xp (fp.map (fun y => y + k)) = interp x xp fp + k := by
  cases xp with
  | nil => exact absurd rfl hne
  | cons x0 xs =>
      cases fp with
      | nil => exact absurd hlen (by simp)
      | cons y0 ys =>
          simp only [List.map_cons, interp]
          by_cases h : x ≤ x0
          · rw [if_pos h, if_pos h]
          · rw [if_neg h, if_neg h]
            exact interpAux_map_add x k xs ys x0 y0 (by simpa using hlen)

/-- Claim C7: `Airfoil.Cl` / `Airfoil.Cd` return the arithmetic mean over the
loaded tables of each table's interpolated value; in particular, for two
identical tables the result equals the single-table interpolated value, and
for two tables whose Cl values differ by a constant offset `k` the result
equals the single-table value plus half the offset. -/
theorem cl_cd_multi_table_average {α : Type} [LinearOrderedField α]
    (af : Airfoil α) (t c d : List α) (k x : α)
    (haf : af.alphas ≠ []) (hne : t ≠ []) (hlen : t.length = c.length) :
    Airfoil.Cl af x =
      ((af.alphas.zip af.cls).map (fun tb => interp x tb.1 tb.2)).sum /
        (af.alphas.length : α) ∧
    Airfoil.Cd af x =
      ((af.alphas.zip af.cds).map (fun tb => interp x tb.1 tb.2)).sum /
        (af.alphas.length : α) ∧
    Airfoil.Cl ⟨[t, t], [c, c], [d, d]⟩ x = interp x t c ∧
    Airfoil.Cd ⟨[t, t], [c, c], [d, d]⟩ x = interp x t d ∧
    Airfoil.Cl ⟨[t, t], [c, c.map (fun y => y + k)], [d, d]⟩ x = interp x t c + k / 2 := by
  refine ⟨rfl, rfl, ?_, ?_, ?_⟩
  · simp [Airfoil.Cl]
  · simp [Airfoil.Cd]
  · simp [Airfoil.Cl, interp_map_add x k t c hne hlen]; ring

/-- Witness for claim C7 over ℚ with `t = [0, 1]`, `c = [2, 4]`, `d = [1, 3]`,
offset `k = 2`, query `x = 5`. -/
theorem cl_cd_multi_table_average_witness :
    Airfoil.Cl (⟨[[0, 1]], [[2, 4]], [[1, 3]]⟩ : Airfoil ℚ) 5 =
      ((([[0, 1]] : List (List ℚ)).zip [[2, 4]]).map (fun tb => interp 5 tb.1 tb.2)).sum /
        (([[0, 1]] : List (List ℚ)).length : ℚ) ∧
    Airfoil.Cd (⟨[[0, 1]], [[2, 4]], [[1, 3]]⟩ : Airfoil ℚ) 5 =
      ((([[0, 1]] : List (List ℚ)).zip [[1, 3]]).map (fun tb => interp 5 tb.1 tb.2)).sum /
        (([[0, 1]] : List (List ℚ)).length : ℚ) ∧
    Airfoil.Cl ⟨[[0, 1], [0, 1]], [[2, 4], [2, 4]], [[1, 3], [1, 3]]⟩ (5 : ℚ) =
      interp 5 [0, 1] [2, 4] ∧
    Airfoil.Cd ⟨[[0, 1], [0, 1]], [[2, 4], [2, 4]], [[1, 3], [1, 3]]⟩ (5 : ℚ) =
      interp 5 [0, 1] [1, 3] ∧
    Airfoil.Cl ⟨[[0, 1], [0, 1]], [[2, 4], ([2, 4] : List ℚ).map (fun y => y + 2)],
        [[1, 3], [1, 3]]⟩ (5 : ℚ) = interp 5 [0, 1] [2, 4] + 2 / 2 :=
  cl_cd_multi_table_average ⟨[[0, 1]], [[2, 4]], [[1, 3]]⟩ [0, 1] [2, 4] [1, 3] 2 5
    (by decide) (by decide) (by decide)

/-- Claim C8: for an ascending sample axis, the interpolated lookups are exact
at sample points, linearly interpolate between adjacent sample points, and
clamp to the nearest endpoint value outside the sampled range; `Blade.chord`,
`Blade.twist` and single-table `Airfoil.Cl`/`Airfoil.Cd` are exactly this
interpolation primitive applied to their tables. -/
theorem interp_lookup_spec {α : Type} [LinearOrderedField α]
    (xp fp : List α) (i j : ℕ) (x xl xr aalpha r : α)
    (bl : Blade α) (t c d : List α)
    (hs : List.Pairwise (· < ·) xp) (hlen : xp.length = fp.length) (hne : xp ≠ [])
    (hi : i < xp.length)
    (hj : j + 1 < xp.length) (hjlo : xp.getD j 0 < x) (hjhi : x ≤ xp.getD (j + 1) 0)
    (hl : xl ≤ xp.getD 0 0) (hr : ∀ y ∈ xp, y < xr) :
    interp (xp.getD i 0) xp fp = fp.getD i 0 ∧
    interp x xp fp =
      fp.getD j 0 + (fp.getD (j + 1) 0 - fp.getD j 0) * (x - xp.getD j 0) /
        (xp.getD (j + 1) 0 - xp.getD j 0) ∧
    interp xl xp fp = fp.getD 0 0 ∧
    interp xr xp fp = fp.getLastD 0 ∧
    Blade.chord bl r = interp r bl.radial bl.chordTab ∧
    Blade.twist bl r = interp r bl.radial bl.twistTab ∧
    Airfoil.Cl ⟨[t], [c], [d]⟩ aalpha = interp aalpha t c ∧
    Airfoil.Cd ⟨[t], [c], [d]⟩ aalpha = interp aalpha t d := by
  refine ⟨interp_exact xp fp i hs hlen hi,
    interp_segment x xp fp j hs hlen hj hjlo hjhi,
    interp_clamp_left xl xp fp hlen hne hl,
    interp_clamp_right xr xp fp hlen hne hr,
    rfl, rfl, ?_, ?_⟩
  · simp [Airfoil.Cl]
  · simp [Airfoil.Cd]

/-- Witness for claim C8 over ℚ with table `[0,1,2] ↦ [5,6,8]`, sample index
`1`, segment `(1, 2)` queried at `2`, and out-of-range queries `-1` and `7`. -/
theorem interp_lookup_spec_witness :
    interp (([0, 1, 2] : List ℚ).getD 1 0) [0, 1, 2] [5, 6, 8] =
      ([5, 6, 8] : List ℚ).getD 1 0 ∧
    interp (2 : ℚ) [0, 1, 2] [5, 6, 8] =
      ([5, 6, 8] : List ℚ).getD 1 0 +
        (([5, 6, 8] : List ℚ).getD 2 0 - ([5, 6, 8] : List ℚ).getD 1 0) *
          (2 - ([0, 1, 2] : List ℚ).getD 1 0) /
        (([0, 1, 2] : List ℚ).getD 2 0 - ([0, 1, 2] : List ℚ).getD 1 0) ∧
    interp (-1 : ℚ) [0, 1, 2] [5, 6, 8] = ([5, 6, 8] : List ℚ).getD 0 0 ∧
    interp (7 : ℚ) [0, 1, 2] [5, 6, 8] = ([5, 6, 8] : List ℚ).getLastD 0 ∧
    Blade.chord (⟨[0, 1], [2, 3], [4, 9], ⟨[], [], []⟩⟩ : Blade ℚ) 4 =
      interp 4 [0, 1] [2, 3] ∧
    Blade.twist (⟨[0, 1], [2, 3], [4, 9], ⟨[], [], []⟩⟩ : Blade ℚ) 4 =
      interp 4 [0, 1] [4, 9] ∧
    Airfoil.Cl ⟨[[0]], [[1]], [[2]]⟩ (9 : ℚ) = interp 9 [0] [1] ∧
    Airfoil.Cd ⟨[[0]], [[1]], [[2]]⟩ (9 : ℚ) = interp 9 [0] [2] :=
  interp_lookup_spec [0, 1, 2] [5, 6, 8] 1 1 2 (-1) 7 9 4
    ⟨[0, 1], [2, 3], [4, 9], ⟨[], [], []⟩⟩ [0] [1] [2]
    (by decide) (by decide) (by decide) (by decide) (by decide) (by decide) (by decide)
    (by decide) (by decide)

/-- Claim C9: `readClCdTables` stores one effective table on the grid with
more samples (ties going to the Cd grid, as in the code): the quantity on the
coarser grid is resampled onto the finer grid by linear interpolation, the
quantity already on the finer grid is kept unchanged, and afterwards the
stored alpha grid, Cl values and Cd values all have the length of the finer
grid. -/
theorem readClCdTables_common_grid {α : Type} [LinearOrderedField α]
    (alphascl cls alphascd cds : List α)
    (hcl : alphascl.length = cls.length) (hcd : alphascd.length = cds.length) :
    Airfoil.readClCdTables alphascl cls alphascd cds =
      (if alphascl.length > alphascd.length then
        ⟨[alphascl], [cls], [alphascl.map (fun a => interp a alphascd cds)]⟩
      else ⟨[alphascd], [alphascd.map (fun a => interp a alphascl cls)], [cds]⟩) ∧
    ((Airfoil.readClCdTables alphascl cls alphascd cds).alphas.getD 0 []).length =
      max alphascl.length alphascd.length ∧
    ((Airfoil.readClCdTables alphascl cls alphascd cds).cls.getD 0 []).length =
      max alphascl.length alphascd.length ∧
    ((Airfoil.readClCdTables alphascl cls alphascd cds).cds.getD 0 []).length =
      max alphascl.length alphascd.length := by
  refine ⟨rfl, ?_, ?_, ?_⟩ <;>
    · by_cases h : alphascl.length > alphascd.length <;>
        simp [Airfoil.readClCdTables, h] <;> omega

/-- Witness for claim C9 over ℚ: Cl grid `[0, 1, 2]` (finer), Cd grid `[0, 2]`
(coarser). -/
theorem readClCdTables_common_grid_witness :
    Airfoil.readClCdTables ([0, 1, 2] : List ℚ) [1, 2, 3] [0, 2] [5, 7] =
      (if ([0, 1, 2] : List ℚ).length > ([0, 2] : List ℚ).length then
        ⟨[[0, 1, 2]], [[1, 2, 3]], [([0, 1, 2] : List ℚ).map (fun a => interp a [0, 2] [5, 7])]⟩
      else ⟨[[0, 2]], [([0, 2] : List ℚ).map (fun a => interp a [0, 1, 2] [1, 2, 3])], [[5, 7]]⟩) ∧
    ((Airfoil.readClCdTables ([0, 1, 2] : List ℚ) [1, 2, 3] [0, 2] [5, 7]).alphas.getD 0
      []).length = max ([0, 1, 2] : List ℚ).length ([0, 2] : List ℚ).length ∧
    ((Airfoil.readClCdTables ([0, 1, 2] : List ℚ) [1, 2, 3] [0, 2] [5, 7]).cls.getD 0
      []).length = max ([0, 1, 2] : List ℚ).length ([0, 2] : List ℚ).length ∧
    ((Airfoil.readClCdTables ([0, 1, 2] : List ℚ) [1, 2, 3] [0, 2] [5, 7]).cds.getD 0
      []).length = max ([0, 1, 2] : List ℚ).length ([0, 2] : List ℚ).length :=
  readClCdTables_common_grid [0, 1, 2] [1, 2, 3] [0, 2] [5, 7] (by decide) (by decide)

end DDWFTTW
